import Mathlib

/-!
Verification development for the prospect-conversion-analysis utilities.

The Python sources are shallowly embedded:
* strings are handled as `List Char`, with Python string methods
  (`strip`, `replace`, `split`, `lower`, containment) given executable models;
* Python floats are modelled exactly by `PyFloat`: an unnormalized integer
  fraction `Frac` (kept unnormalized so that all arithmetic is plain integer
  arithmetic), together with the special values `nan`, `inf`, `-inf`;
  `Frac.toRat` interprets a fraction as the rational it denotes;
* `float(str)` is modelled by `pyFloatOfChars`, covering the decimal-literal
  and `inf`/`nan` grammar accepted by Python;
* `None`/`NaN` inputs and raised exceptions are modelled with `Option`.
-/

set_option maxHeartbeats 1000000

namespace PCA

/-- Whitespace characters stripped by Python `str.strip()` and matched by the
regex class used in the sources (space, tab, newline, return, VT, FF). -/
def pyWs (c : Char) : Bool :=
  c = ' ' || c = '\t' || c = '\n' || c = '\r' || c = Char.ofNat 11 || c = Char.ofNat 12

/-- `str.strip()`: drop whitespace from both ends. -/
def pyStrip (cs : List Char) : List Char :=
  ((cs.dropWhile pyWs).reverse.dropWhile pyWs).reverse

/-- `s.replace(",", "")`: remove every comma. -/
def removeCommas (cs : List Char) : List Char :=
  cs.filter (fun c => c != ',')

/-- Numeric value of a digit character. -/
def digToNat (c : Char) : Nat := c.toNat - '0'.toNat

/-- Value of a digit string. -/
def natOfDigits (cs : List Char) : Nat :=
  cs.foldl (fun a c => 10 * a + digToNat c) 0

/-- An exact but unnormalized fraction `n / d` (denominators produced by the
embedding are always positive powers and products, never zero). -/
structure Frac where
  n : ℤ
  d : ℤ
deriving DecidableEq

/-- The rational denoted by a fraction. -/
def Frac.toRat (f : Frac) : ℚ := (f.n : ℚ) / (f.d : ℚ)

/-- Exact float addition. -/
def Frac.add (a b : Frac) : Frac := ⟨a.n * b.d + b.n * a.d, a.d * b.d⟩

/-- Exact float division by `2.0`. -/
def Frac.half (a : Frac) : Frac := ⟨a.n, 2 * a.d⟩

/-- Negation. -/
def Frac.neg (a : Frac) : Frac := ⟨-a.n, a.d⟩

/-- Scaling by `10 ^ e` for an integer exponent `e`. -/
def Frac.scale10 (a : Frac) (e : ℤ) : Frac :=
  if 0 ≤ e then ⟨a.n * (10 : ℤ) ^ e.toNat, a.d⟩ else ⟨a.n, a.d * (10 : ℤ) ^ (-e).toNat⟩

/-- A Python float: an exact fraction, or one of the special values. -/
inductive PyFloat where
  | fin (f : Frac)
  | nan
  | inf
  | ninf
deriving DecidableEq

/-- Finiteness test (`not (isnan or isinf)`). -/
def PyFloat.isFinite : PyFloat → Bool
  | .fin _ => true
  | _ => false

/-- The rational value of a finite float, `none` for the special values. -/
def PyFloat.val? : PyFloat → Option ℚ
  | .fin f => some f.toRat
  | _ => none

/-- Float addition on the embedded values (special values propagate). -/
def PyFloat.add : PyFloat → PyFloat → PyFloat
  | .nan, _ => .nan
  | _, .nan => .nan
  | .inf, .ninf => .nan
  | .ninf, .inf => .nan
  | .inf, _ => .inf
  | _, .inf => .inf
  | .ninf, _ => .ninf
  | _, .ninf => .ninf
  | .fin a, .fin b => .fin (a.add b)

/-- Float division by `2.0`. -/
def PyFloat.half : PyFloat → PyFloat
  | .fin f => .fin f.half
  | x => x

/-- Case-insensitive comparison of `cs` with a lowercase word `w`. -/
def ciMatch (cs : List Char) (w : List Char) : Bool :=
  (cs.map Char.toLower) == w

/-- Exponent suffix of a float literal: optional sign then digits, consuming
the whole remainder. -/
def parseExp (mant : Frac) (cs : List Char) : Option Frac :=
  let p := match cs with
    | '+' :: r => ((1 : ℤ), r)
    | '-' :: r => ((-1 : ℤ), r)
    | r => ((1 : ℤ), r)
  let ds := p.2.takeWhile Char.isDigit
  let rest := p.2.dropWhile Char.isDigit
  if ds.isEmpty || !rest.isEmpty then none
  else some (mant.scale10 (p.1 * (natOfDigits ds : ℤ)))

/-- Unsigned decimal float literal: digits, optional point and fraction
digits, optional exponent; at least one digit must be present. -/
def parseDecCore (cs : List Char) : Option Frac :=
  let ip := cs.takeWhile Char.isDigit
  let r1 := cs.dropWhile Char.isDigit
  let hasDot := match r1 with | '.' :: _ => true | _ => false
  let r1b := if hasDot then r1.tail else r1
  let fp := r1b.takeWhile Char.isDigit
  let r2 := r1b.dropWhile Char.isDigit
  if ip.isEmpty && fp.isEmpty then none
  else
    let den : ℤ := (10 : ℤ) ^ fp.length
    let mant : Frac := ⟨(natOfDigits ip : ℤ) * den + (natOfDigits fp : ℤ), den⟩
    match r2 with
    | [] => some mant
    | 'e' :: r3 => parseExp mant r3
    | 'E' :: r3 => parseExp mant r3
    | _ => none

/-- Model of Python `float(str)`: strip whitespace, optional sign, then a
decimal literal or one of `inf`, `infinity`, `nan` (case-insensitive).
`none` models a raised `ValueError`. -/
def pyFloatOfChars (cs0 : List Char) : Option PyFloat :=
  let cs := pyStrip cs0
  let p := match cs with
    | '+' :: r => (false, r)
    | '-' :: r => (true, r)
    | r => (false, r)
  if ciMatch p.2 ['i', 'n', 'f'] || ciMatch p.2 ['i', 'n', 'f', 'i', 'n', 'i', 't', 'y'] then
    some (if p.1 then .ninf else .inf)
  else if ciMatch p.2 ['n', 'a', 'n'] then
    some .nan
  else
    match parseDecCore p.2 with
    | some f => some (.fin (if p.1 then f.neg else f))
    | none => none

/-- Split at the first occurrence of character `c` (Python `split(c, 1)`),
returning `none` when `c` does not occur. -/
def splitOnceChar (c : Char) : List Char → Option (List Char × List Char)
  | [] => none
  | x :: r =>
    if x = c then some ([], r)
    else (splitOnceChar c r).map (fun p => (x :: p.1, p.2))

/-- Split at the first occurrence of the separator word `sep`
(Python `split(sep, 1)`), returning `none` when `sep` does not occur. -/
def splitOnceList (sep : List Char) : List Char → Option (List Char × List Char)
  | [] => none
  | x :: r =>
    if sep.isPrefixOf (x :: r) then some ([], (x :: r).drop sep.length)
    else (splitOnceList sep r).map (fun p => (x :: p.1, p.2))

/-- Substring containment (Python `in` on strings). -/
def hasSubstr (pat : List Char) : List Char → Bool
  | [] => pat.isEmpty
  | x :: r => pat.isPrefixOf (x :: r) || hasSubstr pat r

/-- `(float(a) + float(b)) / 2.0`, with `none` when either side fails to
parse (lines 31-36 and 42-47 of the source): both parts must parse. -/
def meanOfParts (a b : List Char) : Option PyFloat :=
  match pyFloatOfChars (pyStrip a), pyFloatOfChars (pyStrip b) with
  | some lo, some hi => some ((lo.add hi).half)
  | _, _ => none

/-- The dash-range attempt: split the comma-stripped string on the first
dash and average the two sides; `none` records the `except: pass`. -/
def dashTry (s : List Char) : Option PyFloat :=
  match splitOnceChar '-' (removeCommas s) with
  | some p => meanOfParts p.1 p.2
  | none => none

/-- The `" to "`-range attempt: split the comma-stripped string on the first
`" to "` and average the two sides; `none` records failure or a missing
separator. -/
def toTry (s : List Char) : Option PyFloat :=
  match splitOnceList [' ', 't', 'o', ' '] (removeCommas s) with
  | some p => meanOfParts p.1 p.2
  | none => none

/-- Final rule: parse the whole comma-stripped string as a single float;
NaN on failure. -/
def wholeStep (s : List Char) : PyFloat :=
  match pyFloatOfChars (removeCommas s) with
  | some f => f
  | none => .nan

/-- The `" to "` rule with its case-insensitive guard, falling through to
`wholeStep` (source lines 38-54). -/
def toStep (s : List Char) : PyFloat :=
  if hasSubstr [' ', 't', 'o', ' '] (s.map Char.toLower) then
    match toTry s with
    | some x => x
    | none => wholeStep s
  else wholeStep s

/-- The dash rule with its guard, falling through to `toStep`
(source lines 28-54). -/
def dashStep (s : List Char) : PyFloat :=
  if s.contains '-' then
    match dashTry s with
    | some x => x
    | none => toStep s
  else toStep s

/-- `HelperFunctions.parse_employee_range_to_midpoint`.  The input is
`none` for a missing (`None`/NaN) value, otherwise the string form of the
value.  Returns NaN when nothing parses. -/
def parse_employee_range_to_midpoint (val : Option String) : PyFloat :=
  match val with
  | none => .nan
  | some v =>
    let s := pyStrip v.data
    if s.isEmpty then .nan
    else if s.getLast? = some '+' then
      match pyFloatOfChars (pyStrip (removeCommas s.dropLast)) with
      | some f => f
      | none => .nan
    else dashStep s

/-- C7: the range-midpoint parser satisfies exactly the documented pairs:
"1000+" ↦ 1000.0, "51-200" ↦ 125.5, "26 to 50" ↦ 38.0, and both "garbage"
and a missing input map to the NaN sentinel. -/
theorem C7_theorem :
    (parse_employee_range_to_midpoint (some "1000+")).val? = some 1000
    ∧ (parse_employee_range_to_midpoint (some "51-200")).val? = some 125.5
    ∧ (parse_employee_range_to_midpoint (some "26 to 50")).val? = some 38
    ∧ parse_employee_range_to_midpoint (some "garbage") = .nan
    ∧ parse_employee_range_to_midpoint none = .nan := by
  refine ⟨?_, ?_, ?_, rfl, rfl⟩
  · rw [show parse_employee_range_to_midpoint (some "1000+") = .fin ⟨1000, 1⟩ from rfl]
    simp [PyFloat.val?, Frac.toRat]
  · rw [show parse_employee_range_to_midpoint (some "51-200") = .fin ⟨251, 2⟩ from rfl]
    simp [PyFloat.val?, Frac.toRat]
    norm_num
  · rw [show parse_employee_range_to_midpoint (some "26 to 50") = .fin ⟨76, 2⟩ from rfl]
    simp [PyFloat.val?, Frac.toRat]
    norm_num

/-- C3: rule priority and failure behaviour of the range-midpoint parser.
A trailing-`+` string whose remainder fails to parse yields the sentinel
immediately; a dash-containing string whose dash-split fails falls through
to the case-insensitive `" to "` rule; if that also fails it falls through
to parsing the whole comma-stripped string; in particular "-5" parses to
-5.0 via the final rule. -/
theorem C3_theorem :
    (∀ v : String,
      (pyStrip v.data).getLast? = some '+' →
      pyFloatOfChars (pyStrip (removeCommas (pyStrip v.data).dropLast)) = none →
      parse_employee_range_to_midpoint (some v) = .nan)
    ∧ (∀ (v : String) (x : PyFloat),
      (pyStrip v.data).getLast? ≠ some '+' →
      (pyStrip v.data).contains '-' = true →
      dashTry (pyStrip v.data) = none →
      hasSubstr [' ', 't', 'o', ' '] ((pyStrip v.data).map Char.toLower) = true →
      toTry (pyStrip v.data) = some x →
      parse_employee_range_to_midpoint (some v) = x)
    ∧ (∀ v : String,
      (pyStrip v.data).getLast? ≠ some '+' →
      (pyStrip v.data).contains '-' = true →
      dashTry (pyStrip v.data) = none →
      (hasSubstr [' ', 't', 'o', ' '] ((pyStrip v.data).map Char.toLower) = false
        ∨ toTry (pyStrip v.data) = none) →
      parse_employee_range_to_midpoint (some v) = wholeStep (pyStrip v.data))
    ∧ parse_employee_range_to_midpoint (some "-5") = .fin ⟨-5, 1⟩
    ∧ (parse_employee_range_to_midpoint (some "-5")).val? = some (-5) := by
  have hcne : ∀ s : List Char, s.contains '-' = true → s.isEmpty = false := by
    intro s h
    cases s with
    | nil => simp [List.contains] at h
    | cons a l => rfl
  refine ⟨?_, ?_, ?_, rfl, ?_⟩
  · intro v h1 h2
    have hne : (pyStrip v.data).isEmpty = false := by
      cases h : pyStrip v.data with
      | nil => rw [h] at h1; simp at h1
      | cons a l => rfl
    simp only [parse_employee_range_to_midpoint]
    rw [hne]
    simp only [Bool.false_eq_true, if_false, h1, if_pos, h2]
  · intro v x h1 h2 h3 h4 h5
    have hne := hcne _ h2
    simp only [parse_employee_range_to_midpoint]
    rw [hne]
    simp only [Bool.false_eq_true, if_false, if_neg h1]
    simp [dashStep, h2, h3, toStep, h4, h5]
  · intro v h1 h2 h3 h4
    have hne := hcne _ h2
    simp only [parse_employee_range_to_midpoint]
    rw [hne]
    simp only [Bool.false_eq_true, if_false, if_neg h1]
    rcases h4 with h4 | h4
    · simp [dashStep, h2, h3, toStep, h4]
    · simp only [dashStep, h2, if_pos, h3]
      simp [toStep, h4]
  · rw [show parse_employee_range_to_midpoint (some "-5") = .fin ⟨-5, 1⟩ from rfl]
    simp [PyFloat.val?, Frac.toRat]

/-- Witness for C3: the three conditional rules applied at concrete inputs:
"x+" hits the trailing-plus failure, "-1 to 4" falls through the failed
dash-split to the " to " rule (mean 1.5), "a-b" falls through both range
rules to the failing whole-string parse. -/
theorem C3_witness :
    parse_employee_range_to_midpoint (some "x+") = .nan
    ∧ parse_employee_range_to_midpoint (some "-1 to 4") = .fin ⟨3, 2⟩
    ∧ parse_employee_range_to_midpoint (some "a-b") = .nan := by
  refine ⟨C3_theorem.1 "x+" (by rfl) (by rfl), ?_, ?_⟩
  · exact C3_theorem.2.1 "-1 to 4" (.fin ⟨3, 2⟩) (by decide) (by rfl) (by rfl) (by rfl) (by rfl)
  · exact (C3_theorem.2.2.1 "a-b" (by decide) (by rfl) (by rfl) (Or.inl (by rfl))).trans (by rfl)

/-! ## Calendar indexing and recency (`helper_functions_for_forecasting.py`) -/

/-- A `pd.Timestamp`: a day number (days since 1970-01-01) plus a
time-of-day component (any sub-day information; units irrelevant). -/
structure Ts where
  day : ℤ
  tod : ℕ

/-- `pd.Timestamp.normalize()`: drop the time-of-day component. -/
def Ts.normalize (t : Ts) : Ts := ⟨t.day, 0⟩

/-- All days from `lo` to `hi` inclusive, ascending
(`pd.date_range(lo, hi, freq="D")`). -/
def rangeList (lo hi : ℤ) : List ℤ :=
  (List.range (hi + 1 - lo).toNat).map (fun i : ℕ => lo + (i : ℤ))

/-- Day 0 (1970-01-01) was a Thursday, so a day number is a Sunday exactly
when it is `≡ 3 (mod 7)`. -/
def isSundayDay (d : ℤ) : Bool := d % 7 = 3

/-- `HelperFunctions.make_sunday_index`: normalize both endpoints, then
`pd.date_range(start, end, freq="W-SUN")`, i.e. every Sunday in the
inclusive range. -/
def make_sunday_index (start stop : Ts) : List ℤ :=
  (rangeList start.normalize.day stop.normalize.day).filter isSundayDay

theorem mem_rangeList {lo hi d : ℤ} : d ∈ rangeList lo hi ↔ lo ≤ d ∧ d ≤ hi := by
  simp only [rangeList, List.mem_map, List.mem_range]
  constructor
  · rintro ⟨i, hlt, rfl⟩
    omega
  · rintro ⟨h1, h2⟩
    exact ⟨(d - lo).toNat, by omega, by omega⟩

theorem rangeList_pairwise (lo hi : ℤ) : (rangeList lo hi).Pairwise (· < ·) := by
  refine List.Pairwise.map _ ?_ (List.pairwise_lt_range _)
  intro a b h
  omega

theorem rangeList_nodup (lo hi : ℤ) : (rangeList lo hi).Nodup :=
  (rangeList_pairwise lo hi).imp (fun h => ne_of_lt h)

/-- C8: the weekly index first normalizes both endpoints and then consists
exactly of the Sundays in the inclusive day range: every element is a
Sunday in range, the list is strictly ascending, endpoints are included
when they are Sundays, and the list is empty when no Sunday is in range. -/
theorem C8_theorem (s e : Ts) :
    make_sunday_index s e = make_sunday_index s.normalize e.normalize
    ∧ (∀ d, d ∈ make_sunday_index s e ↔ s.day ≤ d ∧ d ≤ e.day ∧ d % 7 = 3)
    ∧ (make_sunday_index s e).Pairwise (· < ·)
    ∧ (s.day ≤ e.day → s.day % 7 = 3 → s.day ∈ make_sunday_index s e)
    ∧ (s.day ≤ e.day → e.day % 7 = 3 → e.day ∈ make_sunday_index s e)
    ∧ ((∀ d, s.day ≤ d → d ≤ e.day → d % 7 ≠ 3) → make_sunday_index s e = []) := by
  have hmem : ∀ d, d ∈ make_sunday_index s e ↔ s.day ≤ d ∧ d ≤ e.day ∧ d % 7 = 3 := by
    intro d
    simp only [make_sunday_index, List.mem_filter, mem_rangeList, Ts.normalize, isSundayDay,
      decide_eq_true_eq]
    tauto
  refine ⟨rfl, hmem, ?_, ?_, ?_, ?_⟩
  · exact List.Pairwise.sublist (List.filter_sublist _) (rangeList_pairwise _ _)
  · intro h1 h2
    exact (hmem _).mpr ⟨le_refl _, h1, h2⟩
  · intro h1 h2
    exact (hmem _).mpr ⟨h1, le_refl _, h2⟩
  · intro h
    rcases hn : make_sunday_index s e with _ | ⟨d, l⟩
    · rfl
    · exfalso
      have hd : d ∈ make_sunday_index s e := by rw [hn]; exact List.mem_cons_self _ _
      rcases (hmem d).mp hd with ⟨ha, hb, hc⟩
      exact h d ha hb hc

/-- Witness for C8: the range from day 0 (a Thursday) to day 10 (a Sunday)
contains the Sundays 3 and 10; both conditional clauses are discharged at
this concrete input. -/
theorem C8_witness :
    make_sunday_index ⟨0, 5⟩ ⟨10, 0⟩ = [3, 10]
    ∧ (10 : ℤ) ∈ make_sunday_index ⟨0, 5⟩ ⟨10, 0⟩
    ∧ (3 : ℤ) ∈ make_sunday_index ⟨0, 5⟩ ⟨10, 0⟩ := by
  refine ⟨by rfl, (C8_theorem ⟨0, 5⟩ ⟨10, 0⟩).2.2.2.2.1 (by decide) (by decide), ?_⟩
  exact ((C8_theorem ⟨0, 5⟩ ⟨10, 0⟩).2.1 3).mpr ⟨by decide, by decide, by decide⟩

/-! ### Fold-based minimum and maximum, as `max()` / `.min()` compute them -/

/-- `max(a, *l)`. -/
def maxD (a : ℤ) (l : List ℤ) : ℤ := l.foldl max a

/-- `min(a, *l)`. -/
def minD (a : ℤ) (l : List ℤ) : ℤ := l.foldl min a

theorem le_maxD (a : ℤ) (l : List ℤ) : a ≤ maxD a l := by
  induction l generalizing a with
  | nil => exact le_refl _
  | cons x xs ih => exact le_trans (le_max_left a x) (ih (max a x))

theorem maxD_mem (a : ℤ) (l : List ℤ) : maxD a l = a ∨ maxD a l ∈ l := by
  induction l generalizing a with
  | nil => exact Or.inl rfl
  | cons x xs ih =>
    rcases ih (max a x) with h | h
    · rcases max_choice a x with hm | hm
      · exact Or.inl (by rw [maxD] at h ⊢; rw [List.foldl_cons, h, hm])
      · refine Or.inr (by rw [maxD] at h ⊢; rw [List.foldl_cons, h, hm]; exact List.mem_cons_self _ _)
    · exact Or.inr (List.mem_cons_of_mem _ h)

theorem maxD_ub (a : ℤ) (l : List ℤ) : ∀ x ∈ a :: l, x ≤ maxD a l := by
  intro x hx
  induction l generalizing a with
  | nil => rcases List.mem_cons.mp hx with h | h; exact h ▸ le_refl _; simp at h
  | cons y ys ih =>
    rcases List.mem_cons.mp hx with h | h
    · subst h
      exact le_trans (le_max_left x y) (le_maxD (max x y) ys)
    · rcases List.mem_cons.mp h with h2 | h2
      · subst h2
        exact le_trans (le_max_right a x) (le_maxD (max a x) ys)
      · exact ih (max a y) (List.mem_cons_of_mem _ h2)

theorem maxD_le (a b : ℤ) (l : List ℤ) (ha : a ≤ b) (hl : ∀ x ∈ l, x ≤ b) :
    maxD a l ≤ b := by
  induction l generalizing a with
  | nil => exact ha
  | cons x xs ih =>
    exact ih (max a x) (max_le ha (hl x (List.mem_cons_self _ _)))
      (fun y hy => hl y (List.mem_cons_of_mem _ hy))

theorem maxD_eq (a b : ℤ) (l : List ℤ) (hb : b ∈ a :: l) (hub : ∀ x ∈ a :: l, x ≤ b) :
    maxD a l = b := by
  refine le_antisymm ?_ ?_
  · exact maxD_le a b l (hub a (List.mem_cons_self _ _)) (fun x hx => hub x (List.mem_cons_of_mem _ hx))
  · rcases List.mem_cons.mp hb with h | h
    · exact h ▸ le_maxD a l
    · exact maxD_ub a l b (List.mem_cons_of_mem _ h)

theorem minD_le (a : ℤ) (l : List ℤ) : minD a l ≤ a := by
  induction l generalizing a with
  | nil => exact le_refl _
  | cons x xs ih => exact le_trans (ih (min a x)) (min_le_left a x)

theorem minD_mem (a : ℤ) (l : List ℤ) : minD a l = a ∨ minD a l ∈ l := by
  induction l generalizing a with
  | nil => exact Or.inl rfl
  | cons x xs ih =>
    rcases ih (min a x) with h | h
    · rcases min_choice a x with hm | hm
      · exact Or.inl (by rw [minD] at h ⊢; rw [List.foldl_cons, h, hm])
      · refine Or.inr (by rw [minD] at h ⊢; rw [List.foldl_cons, h, hm]; exact List.mem_cons_self _ _)
    · exact Or.inr (List.mem_cons_of_mem _ h)

theorem minD_lb (a : ℤ) (l : List ℤ) : ∀ x ∈ a :: l, minD a l ≤ x := by
  intro x hx
  induction l generalizing a with
  | nil => rcases List.mem_cons.mp hx with h | h; exact h ▸ le_refl _; simp at h
  | cons y ys ih =>
    rcases List.mem_cons.mp hx with h | h
    · subst h
      exact le_trans (minD_le (min x y) ys) (min_le_left x y)
    · rcases List.mem_cons.mp h with h2 | h2
      · subst h2
        exact le_trans (minD_le (min a x) ys) (min_le_right a x)
      · exact ih (min a y) (List.mem_cons_of_mem _ h2)

theorem le_minD (a b : ℤ) (l : List ℤ) (ha : b ≤ a) (hl : ∀ x ∈ l, b ≤ x) :
    b ≤ minD a l := by
  induction l generalizing a with
  | nil => exact ha
  | cons x xs ih =>
    exact ih (min a x) (le_min ha (hl x (List.mem_cons_self _ _)))
      (fun y hy => hl y (List.mem_cons_of_mem _ hy))

theorem minD_eq (a b : ℤ) (l : List ℤ) (hb : b ∈ a :: l) (hlb : ∀ x ∈ a :: l, b ≤ x) :
    minD a l = b := by
  refine le_antisymm ?_ ?_
  · rcases List.mem_cons.mp hb with h | h
    · exact h ▸ minD_le a l
    · exact minD_lb a l b (List.mem_cons_of_mem _ h)
  · exact le_minD a b l (hlb a (List.mem_cons_self _ _)) (fun x hx => hlb x (List.mem_cons_of_mem _ hx))

/-- `HelperFunctions.days_since_last_activity`: dates of the entity (empty
when absent), keep those `≤ snapshot_date`, return `snapshot - max(prior)`
(the subtraction of normalized dates is an exact whole number of days);
`none` models the NaN sentinel. -/
def days_since_last_activity (company_id : String) (snapshot_date : ℤ)
    (last_active : List (String × List ℤ)) : Option ℤ :=
  let dates := (last_active.lookup company_id).getD []
  let prior := dates.filter (fun d => decide (d ≤ snapshot_date))
  match prior with
  | [] => none
  | p :: ps => some (snapshot_date - maxD p ps)

/-- C4: `days_since_last_activity` returns the whole-day difference between
the snapshot and the maximum activity date not after the snapshot, the
sentinel when no such date exists, is never negative, and does not depend
on the ordering of the entity's activity dates. -/
theorem C4_theorem :
    (∀ (cid : String) (snap : ℤ) (log : List (String × List ℤ)) (r : ℤ),
      days_since_last_activity cid snap log = some r → 0 ≤ r)
    ∧ (∀ (cid : String) (snap : ℤ) (log : List (String × List ℤ)),
      (∀ d ∈ (log.lookup cid).getD [], ¬ d ≤ snap) →
      days_since_last_activity cid snap log = none)
    ∧ (∀ (cid : String) (snap : ℤ) (log : List (String × List ℤ)) (m : ℤ),
      m ∈ (log.lookup cid).getD [] → m ≤ snap →
      (∀ x ∈ (log.lookup cid).getD [], x ≤ snap → x ≤ m) →
      days_since_last_activity cid snap log = some (snap - m))
    ∧ (∀ (cid : String) (snap : ℤ) (log1 log2 : List (String × List ℤ)),
      ((log1.lookup cid).getD []).Perm ((log2.lookup cid).getD []) →
      days_since_last_activity cid snap log1 = days_since_last_activity cid snap log2) := by
  have key : ∀ (snap : ℤ) (dates : List ℤ) (p : ℤ) (ps : List ℤ),
      dates.filter (fun d => decide (d ≤ snap)) = p :: ps →
      maxD p ps ≤ snap ∧ maxD p ps ∈ dates ∧ ∀ x ∈ dates, x ≤ snap → x ≤ maxD p ps := by
    intro snap dates p ps hp
    have hmem : maxD p ps ∈ p :: ps := by
      rcases maxD_mem p ps with h | h
      · rw [h]; exact List.mem_cons_self _ _
      · exact List.mem_cons_of_mem _ h
    have hmemf : maxD p ps ∈ dates.filter (fun d => decide (d ≤ snap)) := hp ▸ hmem
    have h1 := List.mem_filter.mp hmemf
    refine ⟨by simpa using h1.2, h1.1, ?_⟩
    intro x hx hxle
    have hxf : x ∈ p :: ps := hp ▸ List.mem_filter.mpr ⟨hx, by simpa⟩
    exact maxD_ub p ps x hxf
  refine ⟨?_, ?_, ?_, ?_⟩
  · intro cid snap log r h
    simp only [days_since_last_activity] at h
    rcases hp : ((log.lookup cid).getD []).filter (fun d => decide (d ≤ snap)) with _ | ⟨p, ps⟩
    · rw [hp] at h; exact absurd h (by simp)
    · rw [hp] at h
      have hle := (key snap _ p ps hp).1
      have : snap - maxD p ps = r := by injection h
      omega
  · intro cid snap log h
    simp only [days_since_last_activity]
    have : ((log.lookup cid).getD []).filter (fun d => decide (d ≤ snap)) = [] := by
      apply List.filter_eq_nil_iff.mpr
      intro a ha
      simpa using h a ha
    rw [this]
  · intro cid snap log m hm hle hub
    simp only [days_since_last_activity]
    have hmf : m ∈ ((log.lookup cid).getD []).filter (fun d => decide (d ≤ snap)) :=
      List.mem_filter.mpr ⟨hm, by simpa⟩
    rcases hp : ((log.lookup cid).getD []).filter (fun d => decide (d ≤ snap)) with _ | ⟨p, ps⟩
    · rw [hp] at hmf; simp at hmf
    · rw [hp] at hmf
      rcases key snap _ p ps hp with ⟨h1, h2, h3⟩
      have hEq : maxD p ps = m := le_antisymm (hub _ h2 h1) (maxD_ub p ps m hmf)
      show some (snap - maxD p ps) = some (snap - m)
      rw [hEq]
  · intro cid snap log1 log2 hperm
    simp only [days_since_last_activity]
    have hpf : (((log1.lookup cid).getD []).filter (fun d => decide (d ≤ snap))).Perm
        (((log2.lookup cid).getD []).filter (fun d => decide (d ≤ snap))) :=
      hperm.filter _
    rcases h1 : ((log1.lookup cid).getD []).filter (fun d => decide (d ≤ snap)) with _ | ⟨p, ps⟩ <;>
      rcases h2 : ((log2.lookup cid).getD []).filter (fun d => decide (d ≤ snap)) with _ | ⟨q, qs⟩
    · rfl
    · rw [h1, h2] at hpf
      have hlen := hpf.length_eq
      simp at hlen
    · rw [h1, h2] at hpf
      have hlen := hpf.length_eq
      simp at hlen
    · rw [h1, h2] at hpf
      have hqp : maxD p ps = maxD q qs := by
        refine le_antisymm ?_ ?_
        · have : maxD p ps ∈ q :: qs := hpf.mem_iff.mp (by
            rcases maxD_mem p ps with h | h
            · rw [h]; exact List.mem_cons_self _ _
            · exact List.mem_cons_of_mem _ h)
          exact maxD_ub q qs _ this
        · have : maxD q qs ∈ p :: ps := hpf.mem_iff.mpr (by
            rcases maxD_mem q qs with h | h
            · rw [h]; exact List.mem_cons_self _ _
            · exact List.mem_cons_of_mem _ h)
          exact maxD_ub p ps _ this
      show some (snap - maxD p ps) = some (snap - maxD q qs)
      rw [hqp]

/-- Witness for C4, at a concrete log: the entity has activity on days 3, 9
and 20 with snapshot day 12, so the result is `12 - 9 = 3`; it is
nonnegative; reversing the activity list does not change the result; an
absent entity yields the sentinel. -/
theorem C4_witness :
    days_since_last_activity "a" 12 [("a", [3, 20, 9])] = some 3
    ∧ (0 : ℤ) ≤ 3
    ∧ days_since_last_activity "a" 12 [("a", [3, 20, 9])]
        = days_since_last_activity "a" 12 [("a", [9, 20, 3])]
    ∧ days_since_last_activity "b" 12 [("a", [3, 20, 9])] = none := by
  refine ⟨?_, ?_, ?_, ?_⟩
  · exact C4_theorem.2.2.1 "a" 12 [("a", [3, 20, 9])] 9 (by decide) (by decide) (by decide)
  · exact C4_theorem.1 "a" 12 [("a", [3, 20, 9])] 3
      (C4_theorem.2.2.1 "a" 12 [("a", [3, 20, 9])] 9 (by decide) (by decide) (by decide))
  · exact C4_theorem.2.2.2 "a" 12 [("a", [3, 20, 9])] [("a", [9, 20, 3])] (by decide)
  · exact C4_theorem.2.1 "b" 12 [("a", [3, 20, 9])] (by decide)

/-! ### Data frames and daily gap-fill -/

/-- A data-frame row: entity id, date (day number), and the values of the
non-key columns, positionally aligned with `DFrame.cols`; `none` is NaN. -/
structure DRow where
  id : String
  date : ℤ
  cells : List (Option ℚ)
deriving DecidableEq

/-- A data frame: the non-key column names (all columns other than `id`
and `DATE`) and the rows. -/
structure DFrame where
  cols : List String
  rows : List DRow
deriving DecidableEq

/-- `out[agg_cols] = out[agg_cols].fillna(0.0)` on one row's cells:
zero-fill the designated aggregate columns, leave other cells unchanged. -/
def fillCells (cols agg : List String) (cells : List (Option ℚ)) : List (Option ℚ) :=
  (cols.zip cells).map (fun p => if p.1 ∈ agg then some (p.2.getD 0) else p.2)

/-- The fill step applied to a whole row. -/
def fillRow (cols agg : List String) (r : DRow) : DRow :=
  ⟨r.id, r.date, fillCells cols agg r.cells⟩

/-- The join-key test of the merge: `(id, DATE) = (cid, d)`. -/
def rowKey (cid : String) (d : ℤ) (r : DRow) : Bool :=
  decide (r.id = cid ∧ r.date = d)

/-- The left-join contribution of one calendar day: all input rows matching
`(id, DATE) = (cid, d)`, or a fresh all-NaN row when there is none. -/
def mergeBlock (rows : List DRow) (cid : String) (cols : List String) (d : ℤ) : List DRow :=
  match rows.filter (rowKey cid d) with
  | [] => [⟨cid, d, List.replicate cols.length none⟩]
  | ms => ms

/-- `HelperFunctions.complete_daily_index`: entity id from the first row,
min/max of the `DATE` column, complete daily range, left-join of the input
rows on `(id, DATE)`, then zero-fill of the aggregate columns.  `none`
models the exceptions raised on an empty frame (`iloc[0]`) and on aggregate
columns missing from the frame (`KeyError`). -/
def complete_daily_index (df : DFrame) (agg_cols : List String) : Option DFrame :=
  if agg_cols.all (fun c => decide (c ∈ df.cols)) then
    match df.rows with
    | [] => none
    | r0 :: rest =>
      let cid := r0.id
      let dmin := minD r0.date (rest.map (fun r => r.date))
      let dmax := maxD r0.date (rest.map (fun r => r.date))
      let merged := (rangeList dmin dmax).flatMap (mergeBlock (r0 :: rest) cid df.cols)
      some ⟨df.cols, merged.map (fillRow df.cols agg_cols)⟩
  else none

theorem fillCells_idem (cols agg : List String) (cells : List (Option ℚ)) :
    fillCells cols agg (fillCells cols agg cells) = fillCells cols agg cells := by
  induction cols generalizing cells with
  | nil => rfl
  | cons c cs ih =>
    cases cells with
    | nil => rfl
    | cons v vs =>
      show fillCells (c :: cs) agg ((if c ∈ agg then some (v.getD 0) else v) :: fillCells cs agg vs)
        = _
      by_cases h : c ∈ agg <;> simp [fillCells, h] <;> exact ih vs

theorem fillRow_idem (cols agg : List String) (r : DRow) :
    fillRow cols agg (fillRow cols agg r) = fillRow cols agg r := by
  simp [fillRow, fillCells_idem]

theorem fillCells_replicate (cols agg : List String) :
    fillCells cols agg (List.replicate cols.length none)
      = cols.map (fun c => if c ∈ agg then some (0 : ℚ) else none) := by
  induction cols with
  | nil => rfl
  | cons c cs ih =>
    show fillCells (c :: cs) agg (none :: List.replicate cs.length none) = _
    by_cases h : c ∈ agg <;> simp [fillCells, h] <;> simpa [fillCells] using ih

theorem rowKey_iff {cid : String} {d : ℤ} {r : DRow} :
    rowKey cid d r = true ↔ r.id = cid ∧ r.date = d := by
  simp [rowKey]

theorem mergeBlock_ne_nil (rows : List DRow) (cid : String) (cols : List String) (d : ℤ) :
    mergeBlock rows cid cols d ≠ [] := by
  unfold mergeBlock
  rcases h : rows.filter (rowKey cid d) with _ | ⟨m, ms⟩ <;> simp [h]

theorem mem_mergeBlock {rows : List DRow} {cid : String} {cols : List String} {d : ℤ} {r : DRow}
    (h : r ∈ mergeBlock rows cid cols d) :
    r.id = cid ∧ r.date = d ∧ (r ∈ rows ∨ r = ⟨cid, d, List.replicate cols.length none⟩) := by
  unfold mergeBlock at h
  rcases hf : rows.filter (rowKey cid d) with _ | ⟨m, ms⟩
  · rw [hf] at h
    simp at h
    subst h
    exact ⟨rfl, rfl, Or.inr rfl⟩
  · rw [hf] at h
    have hr : r ∈ rows.filter (rowKey cid d) := hf ▸ h
    have := List.mem_filter.mp hr
    rcases this with ⟨hmem, hp⟩
    rcases rowKey_iff.mp hp with ⟨h1, h2⟩
    exact ⟨h1, h2, Or.inl hmem⟩

theorem filter_length_le_one {l : List DRow} (p : DRow → Bool) (d : ℤ)
    (hnod : (l.map (fun r => r.date)).Nodup) (hp : ∀ r, p r = true → r.date = d) :
    (l.filter p).length ≤ 1 := by
  induction l with
  | nil => simp
  | cons a l ih =>
    simp only [List.map_cons, List.nodup_cons] at hnod
    rcases hnod with ⟨ha, hl⟩
    rcases hpa : p a with _ | _
    · simpa [List.filter_cons, hpa] using ih hl
    · have hnil : l.filter p = [] := by
        apply List.filter_eq_nil_iff.mpr
        intro y hy hpy
        exact ha (by
          rw [show d = a.date from (hp a hpa) ▸ rfl] at *
          have : y.date = a.date := (hp y hpy).trans (hp a hpa).symm
          exact this ▸ List.mem_map_of_mem _ hy)
      simp [List.filter_cons, hpa, hnil]

/-- Under distinct input dates, each day's merge block consists of exactly
one row, carrying that day as its date. -/
theorem mergeBlock_dates {rows : List DRow} (cid : String) (cols : List String) (d : ℤ)
    (hnod : (rows.map (fun r => r.date)).Nodup) :
    (mergeBlock rows cid cols d).map (fun r => r.date) = [d] := by
  unfold mergeBlock
  rcases hf : rows.filter (rowKey cid d) with _ | ⟨m, ms⟩
  · simp
  · have hlen : (rows.filter (rowKey cid d)).length ≤ 1 := by
      refine filter_length_le_one _ d hnod ?_
      intro r hr
      exact (rowKey_iff.mp hr).2
    rw [hf] at hlen
    simp at hlen
    subst hlen
    have hm : m ∈ rows.filter (rowKey cid d) := by
      rw [hf]; exact List.mem_cons_self _ _
    have hmk := rowKey_iff.mp (List.mem_filter.mp hm).2
    simp [hmk.2]

theorem filter_flatMap {α β : Type} (l : List α) (f : α → List β) (p : β → Bool) :
    (l.flatMap f).filter p = l.flatMap (fun a => (f a).filter p) := by
  induction l with
  | nil => rfl
  | cons a l ih => simp [List.flatMap_cons, List.filter_append, ih]

theorem flatMap_eq_of_nodup {α : Type} (l : List ℤ) (g : ℤ → List α) (d : ℤ)
    (hnod : l.Nodup) (hd : d ∈ l) (hz : ∀ x ∈ l, x ≠ d → g x = []) :
    l.flatMap g = g d := by
  induction l with
  | nil => simp at hd
  | cons a l ih =>
    simp only [List.nodup_cons] at hnod
    rcases hnod with ⟨ha, hl⟩
    by_cases had : a = d
    · subst had
      have : l.flatMap g = [] := by
        apply List.flatMap_eq_nil_iff.mpr
        intro x hx
        exact hz x (List.mem_cons_of_mem _ hx) (fun hxa => ha (hxa ▸ hx))
      simp [List.flatMap_cons, this]
    · have hdl : d ∈ l := by
        rcases List.mem_cons.mp hd with h | h
        · exact absurd h.symm had
        · exact h
      rw [List.flatMap_cons, hz a (List.mem_cons_self _ _) had, List.nil_append]
      exact ih hl hdl (fun x hx hxd => hz x (List.mem_cons_of_mem _ hx) hxd)

theorem flatMap_id_singleton (l : List ℤ) : (l.flatMap fun d => [d]) = l := by
  induction l with
  | nil => rfl
  | cons a l ih => simp only [List.flatMap_cons, List.singleton_append, ih]

/-- Shape of the gap-fill output: full daily range, per-day merge blocks,
rowwise zero-fill. -/
theorem cdi_eq {df : DFrame} {agg : List String} (r0 : DRow) (rest : List DRow)
    (hrows : df.rows = r0 :: rest)
    (hagg : ∀ c ∈ agg, c ∈ df.cols) :
    complete_daily_index df agg
      = some ⟨df.cols,
          ((rangeList (minD r0.date (rest.map (fun r => r.date)))
                      (maxD r0.date (rest.map (fun r => r.date)))).flatMap
            (mergeBlock (r0 :: rest) r0.id df.cols)).map (fillRow df.cols agg)⟩ := by
  have hall : agg.all (fun c => decide (c ∈ df.cols)) = true := by
    rw [List.all_eq_true]
    intro c hc
    exact decide_eq_true (hagg c hc)
  unfold complete_daily_index
  rw [if_pos hall, hrows]

/-- C2 (amended with pairwise-distinct input dates): the gap-fill output has
exactly one row per calendar day between the observed minimum and maximum
date, in order and with no gaps; every synthesized row (a date absent from
the input) carries the shared entity identifier, has all designated
aggregate columns equal to zero (not absent) and all other columns absent. -/
theorem C2_theorem (df : DFrame) (agg : List String) (r0 : DRow) (rest : List DRow) (out : DFrame)
    (hrows : df.rows = r0 :: rest)
    (_hsingle : ∀ r ∈ df.rows, r.id = r0.id)
    (hnodup : (df.rows.map (fun r => r.date)).Nodup)
    (hagg : ∀ c ∈ agg, c ∈ df.cols)
    (hout : complete_daily_index df agg = some out) :
    out.rows.map (fun r => r.date)
      = rangeList (minD r0.date (rest.map (fun r => r.date)))
                  (maxD r0.date (rest.map (fun r => r.date)))
    ∧ ∀ r ∈ out.rows, r.date ∉ df.rows.map (fun r => r.date) →
        r.id = r0.id
        ∧ r.cells = df.cols.map (fun c => if c ∈ agg then some (0 : ℚ) else none) := by
  have hcdi := cdi_eq r0 rest hrows hagg
  rw [hout] at hcdi
  obtain rfl : out = _ := Option.some.inj hcdi
  rw [hrows] at hnodup
  constructor
  · show (((rangeList _ _).flatMap (mergeBlock (r0 :: rest) r0.id df.cols)).map
      (fillRow df.cols agg)).map (fun r => r.date) = _
    rw [List.map_map]
    have hcomp : ((fun r => r.date) ∘ fillRow df.cols agg) = fun r : DRow => r.date := rfl
    rw [hcomp, List.map_flatMap]
    rw [List.flatMap_congr (fun d _ => mergeBlock_dates r0.id df.cols d hnodup)]
    exact flatMap_id_singleton _
  · intro r hr hnotin
    obtain ⟨r1, hr1, rfl⟩ := List.mem_map.mp hr
    obtain ⟨d, hd, hrb⟩ := List.mem_flatMap.mp hr1
    rcases mem_mergeBlock hrb with ⟨hid, hdate, hor⟩
    rcases hor with hin | hsynth
    · exfalso
      apply hnotin
      rw [hrows]
      show (fillRow df.cols agg r1).date ∈ _
      have : (fillRow df.cols agg r1).date = r1.date := rfl
      rw [this]
      exact List.mem_map_of_mem _ hin
    · subst hsynth
      refine ⟨hid, ?_⟩
      show fillCells df.cols agg (List.replicate df.cols.length none) = _
      exact fillCells_replicate df.cols agg

/-- Concrete frame falsifying C2 as stated: a single-entity table holding
two rows with the same date. -/
def dfC2dup : DFrame := ⟨["A"], [⟨"c", 0, [none]⟩, ⟨"c", 0, [none]⟩]⟩

/-- Counterexample to C2 as stated: on a non-empty single-entity input
table with a duplicated date, the gap-fill output has TWO rows for day 0
while the one-day calendar range [0,0] contains a single day — so the
output does not have exactly one row per calendar day. -/
theorem C2_counterexample :
    (complete_daily_index dfC2dup ["A"]).map (fun o => o.rows.map (fun r => r.date))
      = some [0, 0]
    ∧ rangeList 0 0 = [0]
    ∧ (∀ r ∈ dfC2dup.rows, r.id = "c") := by
  refine ⟨rfl, rfl, ?_⟩
  intro r hr
  rcases List.mem_cons.mp hr with h | h
  · rw [h]
  · rcases List.mem_cons.mp h with h2 | h2
    · rw [h2]
    · simp at h2

/-- Concrete frame for the C2 witness: entity "c" observed on days 0 and 2,
aggregate column "A", extra column "B". -/
def dfC2 : DFrame := ⟨["A", "B"], [⟨"c", 0, [some 1, none]⟩, ⟨"c", 2, [none, some 5]⟩]⟩

/-- The gap-fill output of `dfC2`: day 1 is synthesized with `A = 0`,
`B` absent. -/
def outC2 : DFrame :=
  ⟨["A", "B"], [⟨"c", 0, [some 1, none]⟩, ⟨"c", 1, [some 0, none]⟩, ⟨"c", 2, [some 0, some 5]⟩]⟩

/-- Witness for the amended C2 at the concrete frame `dfC2`. -/
theorem C2_witness :
    complete_daily_index dfC2 ["A"] = some outC2
    ∧ outC2.rows.map (fun r => r.date) = rangeList (minD 0 [2]) (maxD 0 [2]) := by
  have hsingle : ∀ r ∈ dfC2.rows, r.id = "c" := by
    intro r hr
    rcases List.mem_cons.mp hr with h | h
    · rw [h]
    · rcases List.mem_cons.mp h with h2 | h2
      · rw [h2]
      · simp at h2
  have h := C2_theorem dfC2 ["A"] ⟨"c", 0, [some 1, none]⟩ [⟨"c", 2, [none, some 5]⟩] outC2
    rfl hsingle (by decide) (by decide) (by rfl)
  exact ⟨by rfl, h.1⟩

/-- C9: daily gap-fill is idempotent — applying `complete_daily_index` to
its own output (with the same aggregate-column list) returns that output
unchanged, for every non-empty single-entity input table. -/
theorem C9_theorem (df : DFrame) (agg : List String) (r0 : DRow) (rest : List DRow) (out : DFrame)
    (hrows : df.rows = r0 :: rest)
    (_hsingle : ∀ r ∈ df.rows, r.id = r0.id)
    (hagg : ∀ c ∈ agg, c ∈ df.cols)
    (hout : complete_daily_index df agg = some out) :
    complete_daily_index out agg = some out := by
  have hcdi := cdi_eq r0 rest hrows hagg
  rw [hout] at hcdi
  obtain rfl : out = _ := Option.some.inj hcdi
  set cid := r0.id with hcid
  set dmin := minD r0.date (rest.map (fun r => r.date)) with hdmin
  set dmax := maxD r0.date (rest.map (fun r => r.date)) with hdmax
  set block := mergeBlock (r0 :: rest) cid df.cols with hblock
  set FB := fun d => (block d).map (fillRow df.cols agg) with hFB
  set R1 := ((rangeList dmin dmax).flatMap block).map (fillRow df.cols agg) with hR1
  have hR1' : R1 = (rangeList dmin dmax).flatMap FB := by
    rw [hR1, List.map_flatMap]
  have hminmax : dmin ≤ dmax :=
    le_trans (minD_le r0.date (rest.map (fun r => r.date)))
      (le_maxD r0.date (rest.map (fun r => r.date)))
  -- every output row has id `cid` and a date within the full range
  have hmemR : ∀ r ∈ R1, r.id = cid ∧ dmin ≤ r.date ∧ r.date ≤ dmax := by
    intro r hr
    rw [hR1'] at hr
    obtain ⟨d, hd, hrb⟩ := List.mem_flatMap.mp hr
    obtain ⟨r1, hr1, rfl⟩ := List.mem_map.mp hrb
    rcases mem_mergeBlock hr1 with ⟨h1, h2, _⟩
    have hdr : (fillRow df.cols agg r1).date = d := h2
    have hdi : (fillRow df.cols agg r1).id = r1.id := rfl
    rcases mem_rangeList.mp hd with ⟨ha, hb⟩
    exact ⟨hdi ▸ h1, hdr ▸ ⟨ha, hb⟩⟩
  -- both extreme dates are realized in the output
  have hdaymem : ∀ d, dmin ≤ d → d ≤ dmax → ∃ r ∈ R1, r.date = d := by
    intro d h1 h2
    obtain ⟨b, hb⟩ := List.exists_mem_of_ne_nil _ (mergeBlock_ne_nil (r0 :: rest) cid df.cols d)
    refine ⟨fillRow df.cols agg b, ?_, (mem_mergeBlock hb).2.1⟩
    rw [hR1']
    exact List.mem_flatMap.mpr ⟨d, mem_rangeList.mpr ⟨h1, h2⟩, List.mem_map_of_mem _ hb⟩
  rcases hXr : R1 with _ | ⟨s0, srest⟩
  · exfalso
    obtain ⟨r, hr, _⟩ := hdaymem dmin (le_refl _) hminmax
    rw [hXr] at hr
    simp at hr
  -- the second run sees the same id, min and max
  have hs0 : s0.id = cid := (hmemR s0 (hXr ▸ List.mem_cons_self _ _)).1
  have hdates : s0.date :: srest.map (fun r => r.date) = R1.map (fun r => r.date) := by
    rw [hXr]; rfl
  have hmin2 : minD s0.date (srest.map (fun r => r.date)) = dmin := by
    apply minD_eq
    · rw [hdates]
      obtain ⟨r, hr, hrd⟩ := hdaymem dmin (le_refl _) hminmax
      exact hrd ▸ List.mem_map_of_mem _ hr
    · rw [hdates]
      intro x hx
      obtain ⟨r, hr, rfl⟩ := List.mem_map.mp hx
      exact (hmemR r hr).2.1
  have hmax2 : maxD s0.date (srest.map (fun r => r.date)) = dmax := by
    apply maxD_eq
    · rw [hdates]
      obtain ⟨r, hr, hrd⟩ := hdaymem dmax hminmax (le_refl _)
      exact hrd ▸ List.mem_map_of_mem _ hr
    · rw [hdates]
      intro x hx
      obtain ⟨r, hr, rfl⟩ := List.mem_map.mp hx
      exact (hmemR r hr).2.2
  -- re-filtering the completed rows reproduces each day's block
  have hfilter : ∀ d ∈ rangeList dmin dmax, R1.filter (rowKey cid d) = FB d := by
    intro d hd
    rw [hR1', filter_flatMap]
    have hz : ∀ x ∈ rangeList dmin dmax, x ≠ d → (FB x).filter (rowKey cid d) = [] := by
      intro x hx hxd
      apply List.filter_eq_nil_iff.mpr
      intro b hb hkey
      obtain ⟨b1, hb1, rfl⟩ := List.mem_map.mp hb
      rcases mem_mergeBlock hb1 with ⟨h1, h2, _⟩
      rcases rowKey_iff.mp hkey with ⟨_, hd2⟩
      have hd2b : b1.date = d := hd2
      exact hxd (h2 ▸ hd2b)
    rw [flatMap_eq_of_nodup _ _ d (rangeList_nodup _ _) hd hz]
    apply List.filter_eq_self.mpr
    intro b hb
    obtain ⟨b1, hb1, rfl⟩ := List.mem_map.mp hb
    rcases mem_mergeBlock hb1 with ⟨h1, h2, _⟩
    apply rowKey_iff.mpr
    exact ⟨h1, h2⟩
  have hmb2 : ∀ d ∈ rangeList dmin dmax,
      mergeBlock R1 cid df.cols d = FB d := by
    intro d hd
    unfold mergeBlock
    rw [hfilter d hd]
    rcases hFBd : FB d with _ | ⟨b, bs⟩
    · exfalso
      have : block d = [] := List.map_eq_nil_iff.mp (hFB ▸ hFBd)
      exact mergeBlock_ne_nil _ _ _ _ (hblock ▸ this)
    · rfl
  -- assemble the second run
  have happly := @cdi_eq ⟨df.cols, s0 :: srest⟩ agg s0 srest rfl hagg
  rw [happly]
  refine congrArg (fun l => some (DFrame.mk df.cols l)) ?_
  rw [hs0, hmin2, hmax2, ← hXr]
  have hcongr : ∀ d ∈ rangeList dmin dmax,
      (mergeBlock R1 cid df.cols d).map (fillRow df.cols agg) = FB d := by
    intro d hd
    rw [hmb2 d hd, hFB, List.map_map]
    exact List.map_congr_left (fun b _ => fillRow_idem df.cols agg b)
  calc ((rangeList dmin dmax).flatMap (mergeBlock R1 cid df.cols)).map (fillRow df.cols agg)
      = (rangeList dmin dmax).flatMap
          (fun d => (mergeBlock R1 cid df.cols d).map (fillRow df.cols agg)) := by
        rw [List.map_flatMap]
    _ = (rangeList dmin dmax).flatMap FB := List.flatMap_congr hcongr
    _ = R1 := hR1'.symm


/-- Input frame for the C9 witness: entity "e" observed on days 0 and 2. -/
def dfC9 : DFrame := ⟨["A"], [⟨"e", 0, [none]⟩, ⟨"e", 2, [some 3]⟩]⟩

/-- Gap-fill output of `dfC9`. -/
def outC9 : DFrame := ⟨["A"], [⟨"e", 0, [some 0]⟩, ⟨"e", 1, [some 0]⟩, ⟨"e", 2, [some 3]⟩]⟩

/-- Witness for C9 at the concrete frame `dfC9`: re-running gap-fill on its
own output is a no-op. -/
theorem C9_witness : complete_daily_index outC9 ["A"] = some outC9 := by
  have hsingle : ∀ r ∈ dfC9.rows, r.id = "e" := by
    intro r hr
    rcases List.mem_cons.mp hr with h | h
    · rw [h]
    · rcases List.mem_cons.mp h with h2 | h2
      · rw [h2]
      · simp at h2
  exact C9_theorem dfC9 ["A"] ⟨"e", 0, [none]⟩ [⟨"e", 2, [some 3]⟩] outC9 rfl hsingle
    (by decide) (by rfl)

/-! ## Segmentation helpers (`segmentation_helper_functions.py`) -/

/-- A heterogeneous Python value as stored in a `FeatureRow`: `None`, a
float, or a string. -/
inductive PyVal where
  | vnone
  | num (f : PyFloat)
  | vstr (s : String)
deriving DecidableEq

/-- A feature row (`pd.Series`): field name to value; a key absent from the
list models a field missing from the row. -/
def Row := List (String × PyVal)

/-- `row.get(k)` without a default: `none` when the key is missing. -/
def rget (row : Row) (k : String) : Option PyVal := List.lookup k row

/-- `row.get(k, default)`. -/
def pyGet (row : Row) (k : String) (default : PyVal) : PyVal :=
  match rget row k with
  | some v => v
  | none => default

/-- Simplified rendering of `str(x)` for a float (the exact decimal
formatting of `repr(float)` is irrelevant to every claim; only totality
and the rendering of integral values matter). -/
def floatRepr : PyFloat → String
  | .nan => "nan"
  | .inf => "inf"
  | .ninf => "-inf"
  | .fin f => if f.d = 1 then toString f.n ++ ".0" else toString f.n ++ "/" ++ toString f.d

/-- Python `round()` on an exact value: round half to even (denominators
produced by the embedding are positive). -/
def bankersRound (f : Frac) : ℤ :=
  let q := f.n.fdiv f.d
  let r := f.n - q * f.d
  if 2 * r < f.d then q
  else if f.d < 2 * r then q + 1
  else if q % 2 = 0 then q else q + 1

/-- `SegmentationHelper._num`: `default` for `None`/NaN, `float(x)` otherwise,
`default` again when the conversion raises.  Note that a string parsing to
NaN or infinity is returned as such (the NaN test happens before the
conversion). -/
def _num (x : PyVal) (default : Frac) : PyFloat :=
  match x with
  | .vnone => .fin default
  | .num .nan => .fin default
  | .num f => f
  | .vstr s => (pyFloatOfChars s.data).getD (.fin default)

/-- `SegmentationHelper._int`: `int(round(self._num(x, default)))`.  The
`int(...)` call is outside any handler and raises on NaN and infinity:
modelled as `none`. -/
def _int (x : PyVal) (default : Frac) : Option ℤ :=
  match _num x default with
  | .fin f => some (bankersRound f)
  | _ => none

/-- `SegmentationHelper._str`: `default` for `None`/NaN, `str(x)` otherwise. -/
def _str (x : PyVal) (default : String) : String :=
  match x with
  | .vnone => default
  | .num .nan => default
  | .num f => floatRepr f
  | .vstr s => s

/-- The nine placeholder names of the task template. -/
inductive PName where
  | ID
  | INDUSTRY
  | EMPLOYEE_RANGE
  | ALEXA_RANK
  | P
  | DEALS_30
  | EMAIL_30
  | UDEALS_30
  | UEMAIL_30
deriving DecidableEq

/-- A piece of a format template: literal text or one of the nine named
placeholders.  Templates are carried in parsed form; a malformed template
(unknown placeholder) is a caller-configuration error outside this model. -/
inductive TplPart where
  | lit (s : String)
  | ph (n : PName)
deriving DecidableEq

/-- A JSON value as produced by `json.loads` (which also accepts the
non-standard `NaN`, `Infinity` and `-Infinity` literals). -/
inductive JVal where
  | null
  | bool (b : Bool)
  | num (f : PyFloat)
  | str (s : String)
  | arr (l : List JVal)
  | obj (l : List (String × JVal))

/-- The validated enrichment record (field names follow the parsed keys). -/
structure EnrichResult where
  behavior_pattern : Option String
  likely_stage : Option String
  playbook_focus : Option String
  urgency : Option String
  subject_line : Option JVal
  opening_line : Option JVal

/-- `SegmentationHelper.DEFAULT_ALLOWED`. -/
def DEFAULT_ALLOWED : List (String × String × String) :=
  [("High Deals + Multi-user", "Pipeline-driven", "Forecasting + automation"),
   ("High Email", "Outreach-focused", "Sequences + tracking"),
   ("High Contacts only", "Early stage", "Pipeline setup"),
   ("Single-user heavy", "Expansion opportunity", "Team invites"),
   ("Multi-user low activity", "Stalled", "Reactivation"),
   ("Balanced usage", "High intent", "Direct upgrade")]

/-- `SegmentationHelper.DEFAULT_ALLOWED_URGENCY`. -/
def DEFAULT_ALLOWED_URGENCY : List String := ["reach_out_now", "nurture", "reactivate"]

/-- The configured state of a `SegmentationHelper` instance.  The taxonomy
sets are carried as lists used only through membership (the Python sets
deduplicate, which is membership-equivalent). -/
structure SegHelper where
  task_template : List TplPart
  system_prompt : String
  allowed_behavior : List String
  allowed_stage : List String
  allowed_focus : List String
  allowed_urgency : List String

/-- `SegmentationHelper.__init__` (the template-file-loading branches are
one-time external I/O and out of scope; the template is carried in parsed
form).  `allowed or DEFAULT_ALLOWED` falls back to the default when the
argument is `None` **or empty** (Python falsiness), and likewise
`allowed_urgency or DEFAULT_ALLOWED_URGENCY`. -/
def segInit (task_template : List TplPart) (system_prompt : String)
    (allowed : Option (List (String × String × String)))
    (allowed_urgency : Option (List String)) : SegHelper :=
  let a := match allowed with
    | none => DEFAULT_ALLOWED
    | some [] => DEFAULT_ALLOWED
    | some (t :: ts) => t :: ts
  let u := match allowed_urgency with
    | none => DEFAULT_ALLOWED_URGENCY
    | some [] => DEFAULT_ALLOWED_URGENCY
    | some (x :: xs) => x :: xs
  { task_template := task_template
    system_prompt := system_prompt
    allowed_behavior := a.map (fun t => t.1)
    allowed_stage := a.map (fun t => t.2.1)
    allowed_focus := a.map (fun t => t.2.2)
    allowed_urgency := u }

/-! ### build_prompt -/

/-- The environment of coerced placeholder values (the nine keyword
arguments of `str.format`). -/
structure PEnv where
  ID : String
  INDUSTRY : String
  EMPLOYEE_RANGE : String
  ALEXA_RANK : String
  P : PyFloat
  DEALS_30 : ℤ
  EMAIL_30 : ℤ
  UDEALS_30 : ℤ
  UEMAIL_30 : ℤ
deriving DecidableEq

/-- The formatted text of one placeholder. -/
def phString (env : PEnv) : PName → String
  | .ID => env.ID
  | .INDUSTRY => env.INDUSTRY
  | .EMPLOYEE_RANGE => env.EMPLOYEE_RANGE
  | .ALEXA_RANK => env.ALEXA_RANK
  | .P => floatRepr env.P
  | .DEALS_30 => toString env.DEALS_30
  | .EMAIL_30 => toString env.EMAIL_30
  | .UDEALS_30 => toString env.UDEALS_30
  | .UEMAIL_30 => toString env.UEMAIL_30

/-- `template.format(...)` on a well-formed template: substitute every
placeholder. -/
def renderTpl (tpl : List TplPart) (env : PEnv) : String :=
  String.join (tpl.map (fun p => match p with
    | .lit s => s
    | .ph n => phString env n))

/-- The string argument `self._str(row.get(k))`. -/
def strArg (row : Row) (k : String) : String := _str (pyGet row k .vnone) ""

/-- The `ID` argument `self._str(row.get("id", row.get("id")))`. -/
def idArg (row : Row) : String := _str (pyGet row "id" (pyGet row "id" .vnone)) ""

/-- The `P` argument `self._num(row.get("P_CONVERT_30D", row.get("P", 0.0)), 0.0)`. -/
def pArg (row : Row) : PyFloat :=
  _num (pyGet row "P_CONVERT_30D" (pyGet row "P" (.num (.fin ⟨0, 1⟩)))) ⟨0, 1⟩

/-- An integer argument `self._int(row.get(k1, row.get(k2, 0)))`. -/
def intArg (row : Row) (k1 k2 : String) : Option ℤ :=
  _int (pyGet row k1 (pyGet row k2 (.num (.fin ⟨0, 1⟩)))) ⟨0, 1⟩

/-- The nine keyword arguments of `str.format` in `build_prompt`, evaluated
eagerly — so a failing integer coercion raises (`none`) before any
formatting happens. -/
def envOf (row : Row) : Option PEnv :=
  match intArg row "DEALS_30" "ACTIONS_CRM_DEALS_30D_SUM",
        intArg row "EMAIL_30" "ACTIONS_EMAIL_30D_SUM",
        intArg row "UDEALS_30" "USERS_CRM_DEALS_30D_SUM",
        intArg row "UEMAIL_30" "USERS_EMAIL_30D_SUM" with
  | some a, some b, some c, some d =>
    some ⟨idArg row, strArg row "INDUSTRY", strArg row "EMPLOYEE_RANGE", strArg row "ALEXA_RANK",
          pArg row, a, b, c, d⟩
  | _, _, _, _ => none

/-- `SegmentationHelper.build_prompt`: coerce the nine arguments from the
row, then fill the task template; `none` models a raised exception. -/
def build_prompt (h : SegHelper) (row : Row) : Option String :=
  (envOf row).map (renderTpl h.task_template)

/-! ### JSON parsing (`json.loads`) -/

/-- JSON whitespace. -/
def jsonWs (c : Char) : Bool := c = ' ' || c = '\t' || c = '\n' || c = '\r'

/-- Skip JSON whitespace. -/
def skipWs (cs : List Char) : List Char := cs.dropWhile jsonWs

/-- Hexadecimal digit value. -/
def hexVal (c : Char) : Option Nat :=
  if '0' ≤ c ∧ c ≤ '9' then some (c.toNat - '0'.toNat)
  else if 'a' ≤ c ∧ c ≤ 'f' then some (c.toNat - 'a'.toNat + 10)
  else if 'A' ≤ c ∧ c ≤ 'F' then some (c.toNat - 'A'.toNat + 10)
  else none

/-- JSON string body after the opening quote (strict mode: raw control
characters are rejected; `\uXXXX` maps to the code point). -/
def parseStrGo (acc : List Char) : List Char → Option (String × List Char)
  | [] => none
  | '"' :: r => some (⟨acc.reverse⟩, r)
  | '\\' :: e :: r =>
    match e with
    | '"' => parseStrGo ('"' :: acc) r
    | '\\' => parseStrGo ('\\' :: acc) r
    | '/' => parseStrGo ('/' :: acc) r
    | 'b' => parseStrGo (Char.ofNat 8 :: acc) r
    | 'f' => parseStrGo (Char.ofNat 12 :: acc) r
    | 'n' => parseStrGo ('\n' :: acc) r
    | 'r' => parseStrGo ('\r' :: acc) r
    | 't' => parseStrGo ('\t' :: acc) r
    | 'u' =>
      match r with
      | a :: b :: c :: d :: r2 =>
        match hexVal a, hexVal b, hexVal c, hexVal d with
        | some x1, some x2, some x3, some x4 =>
          parseStrGo (Char.ofNat (((x1 * 16 + x2) * 16 + x3) * 16 + x4) :: acc) r2
        | _, _, _, _ => none
      | _ => none
    | _ => none
  | c :: r => if c.toNat < 32 then none else parseStrGo (c :: acc) r

/-- JSON number (strict grammar: no leading zeros, fraction and exponent
digits required when the marker is present), as an exact value. -/
def parseJNum (cs : List Char) : Option (JVal × List Char) :=
  let sp := match cs with
    | '-' :: r => (true, r)
    | r => (false, r)
  let ipOpt : Option (List Char × List Char) :=
    match sp.2 with
    | '0' :: r1 => some (['0'], r1)
    | c :: r1 =>
      if '1' ≤ c ∧ c ≤ '9' then some (c :: r1.takeWhile Char.isDigit, r1.dropWhile Char.isDigit)
      else none
    | [] => none
  match ipOpt with
  | none => none
  | some (ip, r2) =>
    let fpOpt : Option (List Char × List Char) :=
      match r2 with
      | '.' :: rr =>
        if (rr.takeWhile Char.isDigit).isEmpty then none
        else some (rr.takeWhile Char.isDigit, rr.dropWhile Char.isDigit)
      | _ => some ([], r2)
    match fpOpt with
    | none => none
    | some (fp, r3) =>
      let base : Frac := ⟨(natOfDigits (ip ++ fp) : ℤ), (10 : ℤ) ^ fp.length⟩
      let signed : Frac := if sp.1 then base.neg else base
      match r3 with
      | 'e' :: r4 => expCont signed r4
      | 'E' :: r4 => expCont signed r4
      | r4 => some (.num (.fin signed), r4)
where
  /-- Exponent continuation: optional sign, at least one digit. -/
  expCont (m : Frac) (cs : List Char) : Option (JVal × List Char) :=
    let sp := match cs with
      | '+' :: r => ((1 : ℤ), r)
      | '-' :: r => ((-1 : ℤ), r)
      | r => ((1 : ℤ), r)
    let ds := sp.2.takeWhile Char.isDigit
    if ds.isEmpty then none
    else some (.num (.fin (m.scale10 (sp.1 * (natOfDigits ds : ℤ)))),
      sp.2.dropWhile Char.isDigit)

mutual

/-- One JSON value (fuel-indexed recursive-descent on the remaining
characters; the fuel chosen by `jsonLoads` always suffices). -/
def parseVal : Nat → List Char → Option (JVal × List Char)
  | 0, _ => none
  | Nat.succ n, cs =>
    match cs with
    | '{' :: r =>
      match skipWs r with
      | '}' :: r2 => some (.obj [], r2)
      | r2 => parseMembers n r2 []
    | '[' :: r =>
      match skipWs r with
      | ']' :: r2 => some (.arr [], r2)
      | r2 => parseElems n r2 []
    | '"' :: r => (parseStrGo [] r).map (fun p => (.str p.1, p.2))
    | 't' :: 'r' :: 'u' :: 'e' :: r => some (.bool true, r)
    | 'f' :: 'a' :: 'l' :: 's' :: 'e' :: r => some (.bool false, r)
    | 'n' :: 'u' :: 'l' :: 'l' :: r => some (.null, r)
    | 'N' :: 'a' :: 'N' :: r => some (.num .nan, r)
    | 'I' :: 'n' :: 'f' :: 'i' :: 'n' :: 'i' :: 't' :: 'y' :: r => some (.num .inf, r)
    | '-' :: 'I' :: 'n' :: 'f' :: 'i' :: 'n' :: 'i' :: 't' :: 'y' :: r => some (.num .ninf, r)
    | _ => parseJNum cs

/-- Object members after `{` (at least one member). -/
def parseMembers : Nat → List Char → List (String × JVal) → Option (JVal × List Char)
  | 0, _, _ => none
  | Nat.succ n, cs, acc =>
    match cs with
    | '"' :: r =>
      match parseStrGo [] r with
      | none => none
      | some (k, r1) =>
        match skipWs r1 with
        | ':' :: r2 =>
          match parseVal n (skipWs r2) with
          | none => none
          | some (v, r3) =>
            match skipWs r3 with
            | ',' :: r4 => parseMembers n (skipWs r4) (acc ++ [(k, v)])
            | '}' :: r4 => some (.obj (acc ++ [(k, v)]), r4)
            | _ => none
        | _ => none
    | _ => none

/-- Array elements after `[` (at least one element). -/
def parseElems : Nat → List Char → List JVal → Option (JVal × List Char)
  | 0, _, _ => none
  | Nat.succ n, cs, acc =>
    match parseVal n cs with
    | none => none
    | some (v, r) =>
      match skipWs r with
      | ',' :: r2 => parseElems n (skipWs r2) (acc ++ [v])
      | ']' :: r2 => some (.arr (acc ++ [v]), r2)
      | _ => none

end

/-- `json.loads`: parse one value surrounded only by whitespace; `none`
models a raised decode error. -/
def jsonLoads (cs : List Char) : Option JVal :=
  match parseVal (2 * cs.length + 4) (skipWs cs) with
  | some (v, rest) => if (skipWs rest).isEmpty then some v else none
  | none => none

/-- Lookup in a parsed object with `dict` semantics: on duplicate keys the
last binding wins (`obj.get(k)` returning `None` for a missing key). -/
def jget (kvs : List (String × JVal)) (k : String) : Option JVal :=
  List.lookup k kvs.reverse

/-! ### Fence stripping and validation -/

/-- Three backticks at the head (`text.startswith("```")` and the literal
part of the fence pattern). -/
def isFenceStart : List Char → Bool
  | c1 :: c2 :: c3 :: _ => c1 = Char.ofNat 96 && c2 = Char.ofNat 96 && c3 = Char.ofNat 96
  | _ => false

/-- The lazy group of the fence regex: scan forward for the closing
triple backtick, excluding an immediately preceding newline from the
group (the regex tail is a lazy group followed by an optional newline and
the closing fence). -/
def fenceTerm (acc : List Char) : List Char → Option (List Char)
  | [] => none
  | c :: r =>
    if c = '\n' ∧ isFenceStart r then some acc.reverse
    else if isFenceStart (c :: r) then some acc.reverse
    else fenceTerm (c :: acc) r

/-- One attempt of the fence pattern at the current position: the opening
triple backtick, an optional `json` tag, greedy whitespace, then the lazy
group up to the closing triple backtick. -/
def fenceFrom (cs : List Char) : Option (List Char) :=
  if isFenceStart cs then
    let r := cs.drop 3
    let r2 := match r with
      | 'j' :: 's' :: 'o' :: 'n' :: rr => rr
      | rr => rr
    fenceTerm [] (r2.dropWhile pyWs)
  else none

/-- `re.search` of the fence pattern: try every start position left to
right. -/
def fenceSearch : List Char → Option (List Char)
  | [] => none
  | c :: t =>
    match fenceFrom (c :: t) with
    | some g => some g
    | none => fenceSearch t

/-- Lines 107-111 of the source: strip, and when the text starts with a
fence and the pattern matches, replace it by the stripped first group. -/
def preprocText (text : String) : List Char :=
  let cs := pyStrip text.data
  if isFenceStart cs then
    match fenceSearch cs with
    | some g => pyStrip g
    | none => cs
  else cs

/-- Membership test of a parsed value against a taxonomy set
(`x not in set_of_strings`): strings are checked for membership, other
hashable values are never members, and unhashable values (arrays and
objects) raise `TypeError` — modelled as `none`. -/
def valTax (allowedSet : List String) (v : Option JVal) : Option (Option String) :=
  match v with
  | some (.arr _) => none
  | some (.obj _) => none
  | some (.str s) => some (if s ∈ allowedSet then some s else none)
  | _ => some none

/-- `obj.get` for the two free-text fields: a missing key and an explicit
null both come out as `None`. -/
def passThrough : Option JVal → Option JVal
  | some .null => none
  | some v => some v
  | none => none

/-- Lines 118-143 of the source: validate the four taxonomy fields against
their sets and pass the two free-text fields through. -/
def validateObj (h : SegHelper) (kvs : List (String × JVal)) : Option EnrichResult :=
  match valTax h.allowed_behavior (jget kvs "behavior_pattern"),
        valTax h.allowed_stage (jget kvs "likely_stage"),
        valTax h.allowed_focus (jget kvs "playbook_focus"),
        valTax h.allowed_urgency (jget kvs "urgency") with
  | some b, some s, some f, some u =>
    some ⟨b, s, f, u, passThrough (jget kvs "subject_line"),
      passThrough (jget kvs "opening_line")⟩
  | _, _, _, _ => none

/-- The all-absent result. -/
def emptyResult : EnrichResult := ⟨none, none, none, none, none, none⟩

/-- `SegmentationHelper.parse_and_validate`: strip, remove a markdown
fence, `json.loads`; a parse failure is caught and yields the all-absent
result, but a successful parse of a non-object reaches `obj.get` outside
the handler and raises `AttributeError` — modelled as `none`. -/
def parse_and_validate (h : SegHelper) (text : String) : Option EnrichResult :=
  match jsonLoads (preprocText text) with
  | none => some emptyResult
  | some (.obj kvs) => validateObj h kvs
  | some _ => none

/-- A helper instance with all arguments defaulted. -/
def segDefault : SegHelper := segInit [] "" none none

/-- C10: constructing with an empty taxonomy collection (`allowed = []`) or
an empty urgency set falls back to the built-in defaults exactly as if the
argument had been omitted, and consequently every instance has non-empty
taxonomy sets — no instance can be configured to reject every categorical
value. -/
theorem C10_theorem :
    (∀ (t : List TplPart) (sp : String) (u : Option (List String)),
      segInit t sp (some []) u = segInit t sp none u)
    ∧ (∀ (t : List TplPart) (sp : String) (a : Option (List (String × String × String))),
      segInit t sp a (some []) = segInit t sp a none)
    ∧ (∀ (t : List TplPart) (sp : String) a u,
      (segInit t sp a u).allowed_behavior ≠ []
      ∧ (segInit t sp a u).allowed_stage ≠ []
      ∧ (segInit t sp a u).allowed_focus ≠ []
      ∧ (segInit t sp a u).allowed_urgency ≠ []) := by
  refine ⟨fun t sp u => rfl, fun t sp a => rfl, ?_⟩
  intro t sp a u
  rcases a with _ | (_ | ⟨p, ps⟩) <;> rcases u with _ | (_ | ⟨q, qs⟩) <;>
    simp [segInit, DEFAULT_ALLOWED, DEFAULT_ALLOWED_URGENCY]

/-- Counterexample to C1 as stated: on input "5" the text parses as JSON to
a non-object, `obj.get` is reached outside the exception handler and the
function raises `AttributeError` (modelled as `none`) instead of returning
the all-absent result. -/
theorem C1_counterexample :
    parse_and_validate segDefault "5" = none
    ∧ (none : Option EnrichResult) ≠ some emptyResult := by
  exact ⟨rfl, by simp⟩

/-- C1 (amended): whenever the fence-stripped text fails to parse as JSON
at all — including empty or whitespace input and invalid syntax such as
"not json" — `parse_and_validate` returns the all-absent result without
raising; when the text parses to a non-object value the function instead
raises. -/
theorem C1_theorem :
    (∀ (h : SegHelper) (text : String), jsonLoads (preprocText text) = none →
      parse_and_validate h text = some emptyResult)
    ∧ (∀ (h : SegHelper) (text : String) (v : JVal), jsonLoads (preprocText text) = some v →
      (∀ kvs, v ≠ JVal.obj kvs) → parse_and_validate h text = none)
    ∧ (∀ h : SegHelper, parse_and_validate h "" = some emptyResult)
    ∧ (∀ h : SegHelper, parse_and_validate h "   " = some emptyResult)
    ∧ (∀ h : SegHelper, parse_and_validate h "not json" = some emptyResult) := by
  refine ⟨?_, ?_, fun h => rfl, fun h => rfl, fun h => rfl⟩
  · intro h text hl
    unfold parse_and_validate
    rw [hl]
  · intro h text v hl hno
    unfold parse_and_validate
    rw [hl]
    cases v with
    | obj kvs => exact absurd rfl (hno kvs)
    | null => rfl
    | bool b => rfl
    | num f => rfl
    | str s => rfl
    | arr l => rfl

/-- Witness for C1 at concrete inputs: unparseable text yields the
all-absent result; a JSON array (a non-object) yields the raise. -/
theorem C1_witness :
    parse_and_validate segDefault "xyz" = some emptyResult
    ∧ parse_and_validate segDefault "[1]" = none := by
  constructor
  · exact C1_theorem.1 segDefault "xyz" (by rfl)
  · exact C1_theorem.2.1 segDefault "[1]" (.arr [.num (.fin ⟨1, 1⟩)]) (by rfl)
      (fun kvs hk => JVal.noConfusion hk)

theorem valTax_sound {A : List String} {v : Option JVal} {o : Option String}
    (h : valTax A v = some o) : o = none ∨ ∃ s, o = some s ∧ s ∈ A := by
  rcases v with _ | v
  · simp [valTax] at h
    exact Or.inl h.symm
  cases v with
  | null => simp [valTax] at h; exact Or.inl h.symm
  | bool b => simp [valTax] at h; exact Or.inl h.symm
  | num f => simp [valTax] at h; exact Or.inl h.symm
  | str s =>
    simp [valTax] at h
    by_cases hs : s ∈ A
    · rw [if_pos hs] at h
      exact Or.inr ⟨s, h.symm, hs⟩
    · rw [if_neg hs] at h
      exact Or.inl h.symm
  | arr l => simp [valTax] at h
  | obj l => simp [valTax] at h

theorem validateObj_fields {h : SegHelper} {kvs : List (String × JVal)} {r : EnrichResult}
    (hv : validateObj h kvs = some r) :
    valTax h.allowed_behavior (jget kvs "behavior_pattern") = some r.behavior_pattern
    ∧ valTax h.allowed_stage (jget kvs "likely_stage") = some r.likely_stage
    ∧ valTax h.allowed_focus (jget kvs "playbook_focus") = some r.playbook_focus
    ∧ valTax h.allowed_urgency (jget kvs "urgency") = some r.urgency
    ∧ r.subject_line = passThrough (jget kvs "subject_line")
    ∧ r.opening_line = passThrough (jget kvs "opening_line") := by
  obtain ⟨rb, rs, rf, ru, rsub, rop⟩ := r
  unfold validateObj at hv
  rcases h1 : valTax h.allowed_behavior (jget kvs "behavior_pattern") with _ | b
  · rw [h1] at hv; simp at hv
  rcases h2 : valTax h.allowed_stage (jget kvs "likely_stage") with _ | s
  · rw [h1, h2] at hv; simp at hv
  rcases h3 : valTax h.allowed_focus (jget kvs "playbook_focus") with _ | f
  · rw [h1, h2, h3] at hv; simp at hv
  rcases h4 : valTax h.allowed_urgency (jget kvs "urgency") with _ | u
  · rw [h1, h2, h3, h4] at hv; simp at hv
  rw [h1, h2, h3, h4] at hv
  simp only [Option.some.injEq, EnrichResult.mk.injEq] at hv
  obtain ⟨e1, e2, e3, e4, e5, e6⟩ := hv
  subst e1; subst e2; subst e3; subst e4; subst e5; subst e6
  exact ⟨rfl, rfl, rfl, rfl, rfl, rfl⟩

/-- C6: in every validation result each taxonomy-constrained field is
independently either a member of its configured taxonomy or absent; each
output field depends only on its own parsed key, so nulling an
out-of-taxonomy value never changes a sibling field; and on the concrete
fenced input the fences are stripped, parsing succeeds, `behavior_pattern`
(out of the default taxonomy) comes back absent and all other fields are
absent. -/
theorem C6_theorem :
    (∀ (h : SegHelper) (kvs : List (String × JVal)) (r : EnrichResult),
      validateObj h kvs = some r →
        (r.behavior_pattern = none ∨ ∃ s, r.behavior_pattern = some s ∧ s ∈ h.allowed_behavior)
        ∧ (r.likely_stage = none ∨ ∃ s, r.likely_stage = some s ∧ s ∈ h.allowed_stage)
        ∧ (r.playbook_focus = none ∨ ∃ s, r.playbook_focus = some s ∧ s ∈ h.allowed_focus)
        ∧ (r.urgency = none ∨ ∃ s, r.urgency = some s ∧ s ∈ h.allowed_urgency))
    ∧ (∀ (h : SegHelper) (kvs kvs' : List (String × JVal)) (r r' : EnrichResult),
      validateObj h kvs = some r → validateObj h kvs' = some r' →
        (jget kvs "behavior_pattern" = jget kvs' "behavior_pattern" →
          r.behavior_pattern = r'.behavior_pattern)
        ∧ (jget kvs "likely_stage" = jget kvs' "likely_stage" →
          r.likely_stage = r'.likely_stage)
        ∧ (jget kvs "playbook_focus" = jget kvs' "playbook_focus" →
          r.playbook_focus = r'.playbook_focus)
        ∧ (jget kvs "urgency" = jget kvs' "urgency" → r.urgency = r'.urgency)
        ∧ (jget kvs "subject_line" = jget kvs' "subject_line" →
          r.subject_line = r'.subject_line)
        ∧ (jget kvs "opening_line" = jget kvs' "opening_line" →
          r.opening_line = r'.opening_line))
    ∧ parse_and_validate segDefault "```json\n\x7b\"behavior_pattern\":\"X\"\x7d\n```"
        = some emptyResult
    ∧ "X" ∉ segDefault.allowed_behavior := by
  refine ⟨?_, ?_, by rfl, by decide⟩
  · intro h kvs r hv
    rcases validateObj_fields hv with ⟨h1, h2, h3, h4, _, _⟩
    exact ⟨valTax_sound h1, valTax_sound h2, valTax_sound h3, valTax_sound h4⟩
  · intro h kvs kvs' r r' hv hv'
    rcases validateObj_fields hv with ⟨h1, h2, h3, h4, h5, h6⟩
    rcases validateObj_fields hv' with ⟨g1, g2, g3, g4, g5, g6⟩
    refine ⟨?_, ?_, ?_, ?_, ?_, ?_⟩
    · intro he; rw [he] at h1; exact Option.some.inj (h1.symm.trans g1)
    · intro he; rw [he] at h2; exact Option.some.inj (h2.symm.trans g2)
    · intro he; rw [he] at h3; exact Option.some.inj (h3.symm.trans g3)
    · intro he; rw [he] at h4; exact Option.some.inj (h4.symm.trans g4)
    · intro he; rw [h5, g5, he]
    · intro he; rw [h6, g6, he]

/-- Witness for C6: a concrete parsed object with one in-taxonomy field
("Stalled") and one out-of-taxonomy field ("bogus"), checked through the
theorem. -/
theorem C6_witness :
    validateObj segDefault [("likely_stage", .str "Stalled"), ("urgency", .str "bogus")]
      = some ⟨none, some "Stalled", none, none, none, none⟩
    ∧ ((⟨none, some "Stalled", none, none, none, none⟩ : EnrichResult).likely_stage = none
        ∨ ∃ s, (⟨none, some "Stalled", none, none, none, none⟩ : EnrichResult).likely_stage = some s
            ∧ s ∈ segDefault.allowed_stage) := by
  refine ⟨rfl, ?_⟩
  exact (C6_theorem.1 segDefault [("likely_stage", .str "Stalled"), ("urgency", .str "bogus")]
    ⟨none, some "Stalled", none, none, none, none⟩ rfl).2.1

theorem envOf_fields {row : Row} {env : PEnv} (h : envOf row = some env) :
    env.ID = idArg row
    ∧ env.INDUSTRY = strArg row "INDUSTRY"
    ∧ env.EMPLOYEE_RANGE = strArg row "EMPLOYEE_RANGE"
    ∧ env.ALEXA_RANK = strArg row "ALEXA_RANK"
    ∧ env.P = pArg row
    ∧ intArg row "DEALS_30" "ACTIONS_CRM_DEALS_30D_SUM" = some env.DEALS_30
    ∧ intArg row "EMAIL_30" "ACTIONS_EMAIL_30D_SUM" = some env.EMAIL_30
    ∧ intArg row "UDEALS_30" "USERS_CRM_DEALS_30D_SUM" = some env.UDEALS_30
    ∧ intArg row "UEMAIL_30" "USERS_EMAIL_30D_SUM" = some env.UEMAIL_30 := by
  obtain ⟨eI, eN, eE, eA, eP, e1, e2, e3, e4⟩ := env
  unfold envOf at h
  rcases g1 : intArg row "DEALS_30" "ACTIONS_CRM_DEALS_30D_SUM" with _ | a
  · rw [g1] at h; simp at h
  rcases g2 : intArg row "EMAIL_30" "ACTIONS_EMAIL_30D_SUM" with _ | b
  · rw [g1, g2] at h; simp at h
  rcases g3 : intArg row "UDEALS_30" "USERS_CRM_DEALS_30D_SUM" with _ | c
  · rw [g1, g2, g3] at h; simp at h
  rcases g4 : intArg row "UEMAIL_30" "USERS_EMAIL_30D_SUM" with _ | d
  · rw [g1, g2, g3, g4] at h; simp at h
  rw [g1, g2, g3, g4] at h
  simp only [Option.some.injEq, PEnv.mk.injEq] at h
  obtain ⟨f1, f2, f3, f4, f5, f6, f7, f8, f9⟩ := h
  subst f1; subst f2; subst f3; subst f4; subst f5; subst f6; subst f7; subst f8; subst f9
  exact ⟨rfl, rfl, rfl, rfl, rfl, rfl, rfl, rfl, rfl⟩

theorem strArg_default (row : Row) (k : String)
    (h : rget row k = none ∨ rget row k = some .vnone) : strArg row k = "" := by
  rcases h with h | h <;> simp [strArg, pyGet, h, _str]

theorem pArg_default (row : Row) (h1 : rget row "P_CONVERT_30D" = none)
    (h2 : rget row "P" = none) : pArg row = .fin ⟨0, 1⟩ := by
  simp [pArg, pyGet, h1, h2, _num]

theorem pArg_nonnum (row : Row) (s : String)
    (h1 : rget row "P_CONVERT_30D" = some (.vstr s))
    (h2 : pyFloatOfChars s.data = none) : pArg row = .fin ⟨0, 1⟩ := by
  simp [pArg, pyGet, h1, _num, h2]

theorem pArg_fallback (row : Row) (v : PyVal)
    (h1 : rget row "P_CONVERT_30D" = none) (h2 : rget row "P" = some v) :
    pArg row = _num v ⟨0, 1⟩ := by
  simp [pArg, pyGet, h1, h2]

theorem intArg_default (row : Row) (k1 k2 : String)
    (h1 : rget row k1 = none) (h2 : rget row k2 = none) :
    intArg row k1 k2 = some 0 := by
  simp [intArg, pyGet, h1, h2, _int, _num]
  rfl

theorem intArg_round (row : Row) (k1 k2 : String) (f : Frac)
    (h1 : rget row k1 = some (.num (.fin f))) :
    intArg row k1 k2 = some (bankersRound f) := by
  simp [intArg, pyGet, h1, _int, _num]

/-- C5 (amended with a finiteness condition on the four integer-typed
placeholders): `build_prompt` substitutes all nine placeholders and does
not raise whenever the integer coercions produce finite values; string
placeholders default to the empty string on missing or null fields;
numeric placeholders fall back to the named alternate field and default to
0.0 on missing or non-numeric values; integer placeholders are the
banker's rounding of the numeric coercion, defaulting to 0.  (Without the
finiteness condition the claim fails: see the counterexample, where a
field holding the string "nan" makes `int(round(...))` raise.) -/
theorem C5_theorem :
    (∀ (h : SegHelper) (row : Row),
      (intArg row "DEALS_30" "ACTIONS_CRM_DEALS_30D_SUM").isSome = true →
      (intArg row "EMAIL_30" "ACTIONS_EMAIL_30D_SUM").isSome = true →
      (intArg row "UDEALS_30" "USERS_CRM_DEALS_30D_SUM").isSome = true →
      (intArg row "UEMAIL_30" "USERS_EMAIL_30D_SUM").isSome = true →
      ∃ env, envOf row = some env ∧ build_prompt h row = some (renderTpl h.task_template env))
    ∧ (∀ (row : Row) (env : PEnv), envOf row = some env →
      (rget row "INDUSTRY" = none ∨ rget row "INDUSTRY" = some .vnone) →
      env.INDUSTRY = "")
    ∧ (∀ (row : Row) (env : PEnv), envOf row = some env →
      (rget row "id" = none ∨ rget row "id" = some .vnone) → env.ID = "")
    ∧ (∀ (row : Row) (env : PEnv), envOf row = some env →
      rget row "P_CONVERT_30D" = none → rget row "P" = none → env.P = .fin ⟨0, 1⟩)
    ∧ (∀ (row : Row) (env : PEnv) (s : String), envOf row = some env →
      rget row "P_CONVERT_30D" = some (.vstr s) → pyFloatOfChars s.data = none →
      env.P = .fin ⟨0, 1⟩)
    ∧ (∀ (row : Row) (env : PEnv) (v : PyVal), envOf row = some env →
      rget row "P_CONVERT_30D" = none → rget row "P" = some v → env.P = _num v ⟨0, 1⟩)
    ∧ (∀ (row : Row) (env : PEnv), envOf row = some env →
      rget row "DEALS_30" = none → rget row "ACTIONS_CRM_DEALS_30D_SUM" = none →
      env.DEALS_30 = 0)
    ∧ (∀ (row : Row) (env : PEnv) (f : Frac), envOf row = some env →
      rget row "DEALS_30" = some (.num (.fin f)) → env.DEALS_30 = bankersRound f) := by
  refine ⟨?_, ?_, ?_, ?_, ?_, ?_, ?_, ?_⟩
  · intro h row h1 h2 h3 h4
    rcases g1 : intArg row "DEALS_30" "ACTIONS_CRM_DEALS_30D_SUM" with _ | a
    · rw [g1] at h1; simp at h1
    rcases g2 : intArg row "EMAIL_30" "ACTIONS_EMAIL_30D_SUM" with _ | b
    · rw [g2] at h2; simp at h2
    rcases g3 : intArg row "UDEALS_30" "USERS_CRM_DEALS_30D_SUM" with _ | c
    · rw [g3] at h3; simp at h3
    rcases g4 : intArg row "UEMAIL_30" "USERS_EMAIL_30D_SUM" with _ | d
    · rw [g4] at h4; simp at h4
    have henv : envOf row = some ⟨idArg row, strArg row "INDUSTRY", strArg row "EMPLOYEE_RANGE",
        strArg row "ALEXA_RANK", pArg row, a, b, c, d⟩ := by
      unfold envOf
      rw [g1, g2, g3, g4]
    refine ⟨_, henv, ?_⟩
    unfold build_prompt
    rw [henv]
    rfl
  · intro row env he hind
    exact (envOf_fields he).2.1.trans (strArg_default row "INDUSTRY" hind)
  · intro row env he hid
    refine (envOf_fields he).1.trans ?_
    rcases hid with h | h <;> simp [idArg, pyGet, h, _str]
  · intro row env he h1 h2
    exact (envOf_fields he).2.2.2.2.1.trans (pArg_default row h1 h2)
  · intro row env s he h1 h2
    exact (envOf_fields he).2.2.2.2.1.trans (pArg_nonnum row s h1 h2)
  · intro row env v he h1 h2
    exact (envOf_fields he).2.2.2.2.1.trans (pArg_fallback row v h1 h2)
  · intro row env he h1 h2
    have hi := (envOf_fields he).2.2.2.2.2.1
    rw [intArg_default row _ _ h1 h2] at hi
    exact (Option.some.inj hi).symm
  · intro row env f he h1
    have hi := (envOf_fields he).2.2.2.2.2.1
    rw [intArg_round row _ _ f h1] at hi
    exact (Option.some.inj hi).symm

/-- A template containing all nine placeholders. -/
def tpl9 : List TplPart :=
  [.ph .ID, .ph .INDUSTRY, .ph .EMPLOYEE_RANGE, .ph .ALEXA_RANK, .ph .P,
   .ph .DEALS_30, .ph .EMAIL_30, .ph .UDEALS_30, .ph .UEMAIL_30]

/-- A helper whose task template holds all nine placeholders. -/
def hSeg9 : SegHelper := segInit tpl9 "" none none

/-- A row whose `DEALS_30` field holds the string "nan". -/
def rowNan : Row := [("DEALS_30", PyVal.vstr "nan")]

/-- Counterexample to C5 as stated: on a row whose `DEALS_30` field holds
the string "nan", `float("nan")` succeeds, the NaN test inside `_num` was
already passed, and `int(round(nan))` raises `ValueError` outside any
handler (modelled as `none`) — so `build_prompt` raises for this
FeatureRow even with a well-formed nine-placeholder template. -/
theorem C5_counterexample :
    build_prompt hSeg9 rowNan = none
    ∧ (none : Option String) ≠ some (renderTpl hSeg9.task_template
        ⟨"", "", "", "", .fin ⟨0, 1⟩, 0, 0, 0, 0⟩) := by
  exact ⟨rfl, by simp⟩

/-- A concrete row exercising the default and fallback rules. -/
def rowC5 : Row :=
  [("INDUSTRY", .vnone), ("P", .num (.fin ⟨1, 2⟩)), ("DEALS_30", .num (.fin ⟨5, 2⟩))]

/-- The coerced environment of `rowC5`: `INDUSTRY` defaults to the empty
string, `P` falls back to the "P" field, `DEALS_30 = round(2.5) = 2`
(banker's rounding), the other integers default to 0. -/
def envC5 : PEnv := ⟨"", "", "", "", .fin ⟨1, 2⟩, 2, 0, 0, 0⟩

/-- Witness for C5 at the concrete row `rowC5`. -/
theorem C5_witness :
    (build_prompt hSeg9 rowC5).isSome = true
    ∧ envC5.INDUSTRY = ""
    ∧ envC5.DEALS_30 = 2 := by
  refine ⟨?_, ?_, ?_⟩
  · obtain ⟨env, he, hb⟩ := C5_theorem.1 hSeg9 rowC5 (by rfl) (by rfl) (by rfl) (by rfl)
    rw [hb]
    rfl
  · exact C5_theorem.2.1 rowC5 envC5 (by rfl) (Or.inr (by rfl))
  · exact (C5_theorem.2.2.2.2.2.2.2 rowC5 envC5 ⟨5, 2⟩ (by rfl) (by rfl)).trans (by rfl)

end PCA
